import Mathlib

/-!
Verification of the cnet-aging invoice pipeline core
(`invoices_export/ui/normalize.py`, `invoices_export/ui/filters.py`,
`invoices_export/ui/charts.py`, `reporting/report.py`) via a shallow
embedding: pandas tables become `List`s of typed row records, element-wise
pandas coercions become explicit functions on a `Value` type of raw cells,
and the regular expression `^\s*(\d{4}-\d{4}|\d{7,10})\b` is embedded as a
backtracking matcher over character lists with Python `re` semantics.
-/

namespace CnetAging

/-- A raw scalar cell of a pandas column, as the repository's data source can
produce it: missing (`NaN`/`None`/`NaT`), free text, a number, a boolean, or
an already-parsed calendar date (represented as days since 1970-01-01). -/
inductive Value where
  | null : Value
  | str : String → Value
  | num : ℚ → Value
  | bool : Bool → Value
  | date : Int → Value
deriving DecidableEq, Repr

/-! ### Character classes of Python `re` / `str`, as used by the source

The source uses `\s`, `\d`, `\w` (with `re.UNICODE`) and `str.strip`,
`str.lower`.  `\d` is modelled as the ASCII digits and `\w` as ASCII
alphanumerics, the underscore, and every non-ASCII codepoint: this matches
Python on all characters the repository's company names and path fragments
contain (accented letters count as word characters, ASCII punctuation does
not). -/

/-- Python `\s` / `str.strip` whitespace: space, tab, LF, CR, VT, FF. -/
def pySpace (c : Char) : Bool :=
  c == ' ' || c == '\t' || c == '\n' || c == '\r' || c == '\x0b' || c == '\x0c'

/-- Python `\d` (ASCII digits). -/
def pyDigit (c : Char) : Bool := c.isDigit

/-- Python `\w` with `re.UNICODE`: alphanumerics, `_`, and (as a model of the
non-ASCII word characters) every codepoint ≥ U+0080. -/
def pyWord (c : Char) : Bool := c.isAlphanum || c == '_' || decide (0x80 ≤ c.toNat)

/-- Python `str.strip()` on a character list. -/
def pyStripList (l : List Char) : List Char :=
  ((l.dropWhile pySpace).reverse.dropWhile pySpace).reverse

/-- Python `str.strip()`. -/
def pyStrip (s : String) : String := String.mk (pyStripList s.data)

/-- Python `str.lower()` (ASCII case fold, sufficient for the fixed truthy
tokens and the `"paid"` comparison used by the source). -/
def pyLower (s : String) : String := String.mk (s.data.map Char.toLower)

/-! ### The company-number regex, `filters.py` lines 22-36

`_COMPANY_NUM_RE = re.compile(r"^\s*(\d{4}-\d{4}|\d{7,10})\b")` and
`extract_company_number`.  The matcher is embedded with Python `re`
semantics: anchored at the start, `\s*` consumes greedily (safe, because no
character is both a space and a digit), the alternation is ordered, and
`\d{7,10}` is greedy with backtracking, so the quantifier retries lengths
10, 9, 8, 7 in that order before the overall match fails. -/

/-- `\b` after a character that is a word character: succeeds at end of
input or when the next character is not a word character. -/
def boundaryAfter : List Char → Bool
  | [] => true
  | c :: _ => !pyWord c

/-- Match exactly `k` digits at the front; returns the token and the rest. -/
def matchDigits (k : Nat) (cs : List Char) : Option (List Char × List Char) :=
  let tok := cs.take k
  if tok.length = k ∧ tok.all pyDigit then some (tok, cs.drop k) else none

/-- The branch `\d{4}-\d{4}` followed by `\b`. -/
def hyphenBranch (cs : List Char) : Option (List Char) :=
  match matchDigits 4 cs with
  | none => none
  | some (t1, rest1) =>
    match rest1 with
    | [] => none
    | c :: rest2 =>
      if c = '-' then
        match matchDigits 4 rest2 with
        | none => none
        | some (t2, rest3) =>
          if boundaryAfter rest3 then some (t1 ++ '-' :: t2) else none
      else none

/-- One backtracking attempt of the `\d{7,10}` branch at width `k`,
followed by `\b`. -/
def digitTry (k : Nat) (cs : List Char) : Option (List Char) :=
  match matchDigits k cs with
  | none => none
  | some (tok, rest) => if boundaryAfter rest then some tok else none

/-- The branch `\d{7,10}` followed by `\b`: greedy, so lengths are tried
from 10 down to 7, the first one whose digits exist and whose following
position is a word boundary wins. -/
def digitBranch (cs : List Char) : Option (List Char) :=
  match digitTry 10 cs with
  | some t => some t
  | none =>
    match digitTry 9 cs with
    | some t => some t
    | none =>
      match digitTry 8 cs with
      | some t => some t
      | none => digitTry 7 cs

/-- `_COMPANY_NUM_RE.match(name)`: group 1 of the anchored match, if any. -/
def companyNumMatch (s : String) : Option String :=
  let rest := s.data.dropWhile pySpace
  match hyphenBranch rest with
  | some tok => some (String.mk tok)
  | none =>
    match digitBranch rest with
    | some tok => some (String.mk tok)
    | none => none

/-- `extract_company_number` (filters.py lines 25-36): `None` unless the
argument is a string that is non-empty after stripping, else the regex
match. -/
def extract_company_number (v : Value) : Option String :=
  match v with
  | Value.str s => if (pyStrip s).data.isEmpty then none else companyNumMatch s
  | _ => none

/-- `extract_company_number` on a value that is already a string (the shape
in which `apply_filters` uses it after `astype(str)`). -/
def extractCompanyNumberStr (s : String) : Option String :=
  extract_company_number (Value.str s)

/-- The contract of §4.2 / C9, written from the specification's words: after
optional leading whitespace the name must start with a `\d{4}-\d{4}`
hyphenated pattern or a bare run of 7 to 10 digits, immediately followed by
a word boundary, in which case the leading token is returned; every other
name — including one starting with a run of 11 or more digits — yields no
match. -/
def claimCompanyToken (s : String) : Option String :=
  let rest := s.data.dropWhile pySpace
  if (rest.take 4).length = 4 ∧ (rest.take 4).all pyDigit ∧ (rest.drop 4).take 1 = ['-'] ∧
      ((rest.drop 5).take 4).length = 4 ∧ ((rest.drop 5).take 4).all pyDigit ∧
      boundaryAfter (rest.drop 9) then
    some (String.mk (rest.take 4 ++ '-' :: (rest.drop 5).take 4))
  else if 7 ≤ (rest.takeWhile pyDigit).length ∧ (rest.takeWhile pyDigit).length ≤ 10 ∧
      boundaryAfter (rest.drop (rest.takeWhile pyDigit).length) then
    some (String.mk (rest.takeWhile pyDigit))
  else none

/-! ### Models of the element-wise pandas coercions used by `normalize.py`

Each raw column transform in `normalize_invoices` is element-wise, so it is
embedded as a function on `Value`.  Dates are represented as days since
1970-01-01; `pd.to_datetime(..., errors="coerce").dt.date` parses ISO
`YYYY-MM-DD` strings, keeps already-parsed dates, coerces numbers as
nanosecond epoch offsets, and turns everything unparseable into `NaT`
(`Value.null`). -/

/-- Parse an unsigned decimal integer from digit characters. -/
def digitsToNat : List Char → Option Nat
  | [] => none
  | cs => if cs.all pyDigit then some (cs.foldl (fun a c => a * 10 + (c.toNat - '0'.toNat)) 0) else none

/-- Days from 1970-01-01 of a proleptic Gregorian date (civil-days
conversion, divisions are floor divisions). -/
def daysFromCivil (y m d : Int) : Int :=
  let y1 := if m ≤ 2 then y - 1 else y
  let era := Int.fdiv y1 400
  let yoe := y1 - era * 400
  let mp := if m ≤ 2 then m + 9 else m - 3
  let doy := Int.fdiv (153 * mp + 2) 5 + d - 1
  let doe := yoe * 365 + Int.fdiv yoe 4 - Int.fdiv yoe 100 + doy
  era * 146097 + doe - 719468

/-- Parse `YYYY-MM-DD` into days since epoch. -/
def parseIsoDate (s : String) : Option Int :=
  match (pyStrip s).data.splitOn '-' with
  | [ys, ms, ds] =>
    match digitsToNat ys, digitsToNat ms, digitsToNat ds with
    | some y, some m, some d =>
      if 1 ≤ m && m ≤ 12 && 1 ≤ d && d ≤ 31 then
        some (daysFromCivil (Int.ofNat y) (Int.ofNat m) (Int.ofNat d))
      else none
    | _, _, _ => none
  | _ => none

/-- `pd.to_datetime(col, errors="coerce").dt.date`, element-wise. -/
def pdToDatetimeDate (v : Value) : Value :=
  match v with
  | Value.date d => Value.date d
  | Value.null => Value.null
  | Value.str s =>
    match parseIsoDate s with
    | some d => Value.date d
    | none => Value.null
  | Value.num q => Value.date (Int.fdiv (Rat.floor q) 86400000000000)
  | Value.bool _ => Value.null

/-- Parse a decimal literal (optional sign, digits, optional fraction). -/
def parseDecimal (s : String) : Option ℚ :=
  let cs := (pyStrip s).data
  let (sign, cs) : ℚ × List Char :=
    match cs with
    | '-' :: rest => (-1, rest)
    | '+' :: rest => (1, rest)
    | _ => (1, cs)
  match cs.splitOn '.' with
  | [ip] => (digitsToNat ip).map (fun n => sign * (n : ℚ))
  | [ip, fp] =>
    match digitsToNat ip, digitsToNat fp with
    | some n, some f => some (sign * ((n : ℚ) + (f : ℚ) / ((10 : ℚ) ^ fp.length)))
    | _, _ => none
  | _ => none

/-- `pd.to_numeric(col, errors="coerce")`, element-wise: numbers pass
through, booleans become 0/1, parseable strings become their value, and
everything else coerces to missing. -/
def pdToNumeric (v : Value) : Value :=
  match v with
  | Value.num q => Value.num q
  | Value.bool b => Value.num (if b then 1 else 0)
  | Value.str s =>
    match parseDecimal s with
    | some q => Value.num q
    | none => Value.null
  | Value.null => Value.null
  | Value.date _ => Value.null

/-- `Series.fillna(dflt)`, element-wise. -/
def fillna (dflt v : Value) : Value :=
  match v with
  | Value.null => dflt
  | v => v

/-- `Series.astype(str)`, element-wise: strings pass through, booleans print
as `True`/`False`, missing prints as `nan`, integral numbers print their
integer digits and other numbers their rational form, dates print ISO-like
text. -/
def pyStr (v : Value) : String :=
  match v with
  | Value.str s => s
  | Value.bool true => "True"
  | Value.bool false => "False"
  | Value.null => "nan"
  | Value.num q => toString q
  | Value.date d => "date:" ++ toString d

/-- The truthy-token test of `normalize_invoices`:
`astype(str).str.strip().str.lower().isin(["true","t","1","yes"])`. -/
def pastDueTruthy (v : Value) : Bool :=
  let s := pyLower (pyStrip (pyStr v))
  s == "true" || s == "t" || s == "1" || s == "yes"

/-- A raw invoice row holding the source columns touched by
`normalize_invoices` (claim premise: the source columns are present). -/
structure RawRow where
  issue_date : Value
  days_since_issue : Value
  total_amount_with_taxes : Value
  past_due : Value
  payment_status : Value
  payment_status_norm : Value
  invoice_type : Value
  buyer_company_name : Value
  vendor_company_name : Value
  work_description : Value
deriving DecidableEq, Repr

/-- `normalize_invoices` (normalize.py lines 5-29), per row: every transform
in the source is element-wise over the frame's columns. -/
def normalizeRow (r : RawRow) : RawRow where
  issue_date := pdToDatetimeDate r.issue_date
  days_since_issue := pdToNumeric r.days_since_issue
  total_amount_with_taxes := fillna (Value.num 0) (pdToNumeric r.total_amount_with_taxes)
  past_due := Value.bool (pastDueTruthy r.past_due)
  payment_status := Value.str (pyStr (fillna (Value.str "") r.payment_status))
  payment_status_norm :=
    Value.str (pyLower (pyStrip (pyStr (fillna (Value.str "") r.payment_status))))
  invoice_type := Value.str (pyStr (fillna (Value.str "") r.invoice_type))
  buyer_company_name := Value.str (pyStr (fillna (Value.str "(null)") r.buyer_company_name))
  vendor_company_name := Value.str (pyStr (fillna (Value.str "(null)") r.vendor_company_name))
  work_description := Value.str (pyStr (fillna (Value.str "") r.work_description))

/-- `normalize_invoices` on a whole table. -/
def normalizeTable (df : List RawRow) : List RawRow :=
  df.map normalizeRow

/-! ### Normalized rows and the filter engine (`filters.py`)

A normalized invoice row, as `normalize_invoices` produces it: nullable
date and aging number, non-null strings, boolean past-due flag, numeric
amount (exact rationals stand in for the floats). -/

structure Row where
  issue_date : Option Int
  days_since_issue : Option Int
  invoice_type : String
  buyer_company_name : String
  vendor_company_name : String
  payment_status_norm : String
  past_due : Bool
  total_amount_with_taxes : ℚ
deriving DecidableEq, Repr

/-- The `Filters` dataclass (filters.py lines 10-19). -/
structure Filters where
  issue_from : Int
  issue_to : Int
  aging_min : Int
  aging_max : Int
  invoice_type : String
  internal_external : List String
  buyer_selected : List String
  vendor_selected : List String

/-- `series.notna() & (series >= lo)`-style comparison: pandas comparisons
with a missing value are false, and the notna step precedes them anyway. -/
def optGe (o : Option Int) (lo : Int) : Bool :=
  match o with
  | some d => decide (lo ≤ d)
  | none => false

/-- `series <= hi` with missing compared as false. -/
def optLe (o : Option Int) (hi : Int) : Bool :=
  match o with
  | some d => decide (d ≤ hi)
  | none => false

/-- `_build_vendor_numbers_universe` (filters.py lines 39-52): company
numbers extracted from every vendor name of the FULL unfiltered table
(extracted tokens are never the empty string, so the `if num:` truthiness
test is the `isSome` test). -/
def vendorNumbersUniverse (df : List Row) : List String :=
  df.filterMap (fun r => extractCompanyNumberStr r.vendor_company_name)

/-- The per-row `is_internal` value computed inside `apply_filters`
(filters.py lines 283-289): when the vendor-number universe is empty the
series is constant `False`, otherwise the buyer's extracted number is
tested for membership in the universe.  The filter configuration `f` is in
scope at that point of the source but never read. -/
def rowIsInternal (df : List Row) (_f : Filters) (r : Row) : Bool :=
  let uni := vendorNumbersUniverse df
  if uni.isEmpty then false
  else
    match extractCompanyNumberStr r.buyer_company_name with
    | some n => uni.contains n
    | none => false

/-- `apply_filters` (filters.py lines 261-300), step for step. -/
def applyFilters (df : List Row) (f : Filters) : List Row :=
  let d1 := df.filter (fun r => r.issue_date.isSome)
  let d2 := d1.filter (fun r => optGe r.issue_date f.issue_from && optLe r.issue_date f.issue_to)
  let d3 := d2.filter (fun r => r.days_since_issue.isSome)
  let d4 := d3.filter (fun r => optGe r.days_since_issue f.aging_min)
  let d5 := d4.filter (fun r => optLe r.days_since_issue f.aging_max)
  let d6 := if f.invoice_type ≠ "All" then d5.filter (fun r => r.invoice_type == f.invoice_type) else d5
  let d7 := if ¬ f.buyer_selected.isEmpty then
      d6.filter (fun r => f.buyer_selected.contains r.buyer_company_name) else d6
  let d8 := if ¬ f.vendor_selected.isEmpty then
      d7.filter (fun r => f.vendor_selected.contains r.vendor_company_name) else d7
  let d9 := d8.filter (fun r => r.payment_status_norm != "paid")
  let wantedInternal := f.internal_external.contains "Internal"
  let wantedExternal := f.internal_external.contains "External"
  if wantedInternal && !wantedExternal then d9.filter (fun r => rowIsInternal df f r)
  else if wantedExternal && !wantedInternal then d9.filter (fun r => !rowIsInternal df f r)
  else d9

/-- The Internal classification as the specification words it (§4.2, C2):
a row is Internal iff the company number extracted from its buyer name is a
member of the set of numbers extracted from the vendor names of the full
unfiltered table. -/
def claimIsInternal (df : List Row) (r : Row) : Bool :=
  match extractCompanyNumberStr r.buyer_company_name with
  | some n => (vendorNumbersUniverse df).contains n
  | none => false

/-- The conjunction of the six predicates of §4.3 as claim C1 words them:
issue date present and in range, aging present and in range, type selector,
unpaid, Internal/External selection (no restriction when both or neither is
selected), and buyer/vendor membership when the selection lists are
non-empty. -/
def claimPassesFilters (df : List Row) (f : Filters) (r : Row) : Bool :=
  (match r.issue_date with
   | some d => decide (f.issue_from ≤ d) && decide (d ≤ f.issue_to)
   | none => false) &&
  (match r.days_since_issue with
   | some d => decide (f.aging_min ≤ d) && decide (d ≤ f.aging_max)
   | none => false) &&
  (f.invoice_type == "All" || r.invoice_type == f.invoice_type) &&
  (r.payment_status_norm != "paid") &&
  (if "Internal" ∈ f.internal_external ∧ "External" ∉ f.internal_external then
     claimIsInternal df r
   else if "External" ∈ f.internal_external ∧ "Internal" ∉ f.internal_external then
     !claimIsInternal df r
   else true) &&
  (f.buyer_selected.isEmpty || f.buyer_selected.contains r.buyer_company_name) &&
  (f.vendor_selected.isEmpty || f.vendor_selected.contains r.vendor_company_name)

/-! ### The past-due aging rollup (`charts.py`, `render_past_due_bins`)

Only the binning mathematics is embedded; the Altair chart construction
consumes the rollup unchanged.  The page feeds this function
`df_f[df_f["past_due"]]`, the past-due rows of the filtered table. -/

/-- Sum of the amount column. -/
def sumAmt (l : List Row) : ℚ :=
  (l.map Row.total_amount_with_taxes).sum

/-- `series.max()` of a list of integers, `none` on the empty list. -/
def listMax? : List Int → Option Int
  | [] => none
  | x :: xs => some (xs.foldl max x)

/-- `past_due_df.dropna(subset=["days_since_issue"])`. -/
def binsTmp (pdf : List Row) : List Row :=
  pdf.filter (fun r => r.days_since_issue.isSome)

/-- `max_edge = ((max_days // 30) + 1) * 30` (Python `//` is floor
division). -/
def maxEdgeOf (m : Int) : Int :=
  (Int.fdiv m 30 + 1) * 30

/-- Python `list(range(0, stop, 30))`. -/
def range30 (stop : Int) : List Int :=
  (List.range (if stop ≤ 0 then 0 else ((stop + 29).fdiv 30).toNat)).map
    (fun (i : Nat) => 30 * (i : Int))

/-- `edges = list(range(0, max_edge + 30, 30))`. -/
def edgesOf (m : Int) : List Int :=
  range30 (maxEdgeOf m + 30)

/-- Number of bins, `len(edges) - 1`. -/
def binCountOf (m : Int) : Nat :=
  (edgesOf m).length - 1

/-- The half-open intervals `[edges[i], edges[i+1])` that `pd.cut(...,
right=False)` cuts into. -/
def intervalsOf (m : Int) : List (Int × Int) :=
  (edgesOf m).zip (edgesOf m).tail

/-- `pd.cut(value, bins=edges, right=False, include_lowest=True)`: the index
of the interval containing `d`, `none` (NaN category) when `d` lies outside
every interval. -/
def binIdxOf (m : Int) (d : Int) : Option Nat :=
  if 0 ≤ d ∧ d < maxEdgeOf m then some ((Int.fdiv d 30).toNat) else none

/-- The rows grouped into bin `i`. -/
def rowsInBin (m : Int) (l : List Row) (i : Nat) : List Row :=
  l.filter (fun r =>
    match r.days_since_issue with
    | some d => binIdxOf m d == some i
    | none => false)

/-- Outcome of `render_past_due_bins`: the two early returns that only show
a warning, the `ValueError` raise, or a rendered rollup. -/
inductive BinsResult where
  | empty : BinsResult
  | error : BinsResult
  | ok : List (Int × Nat × ℚ) → BinsResult
deriving DecidableEq, Repr

/-- The rollup of `render_past_due_bins` (charts.py lines 6-46): per bin, in
ascending bin-start order, the row count and the amount sum.

`BinsResult.empty` models the early returns on an empty input or on an
input with no usable `days_since_issue`.  `BinsResult.error` models the
`ValueError` raise: when the edge list has fewer than two entries (all
aging sufficiently negative) `pd.cut` itself fails, and otherwise any row
that `pd.cut` assigns to no interval (negative `days_since_issue`, since
the bins start at 0) yields the NaN category, whose `'nan'` label makes
`tmp["aging_bin"].astype(str).str.split("-").str[0].astype(int)` raise
before any chart is built.  Only when every usable row falls inside a bin
is the grouped rollup produced. -/
def pastDueBins (pdf : List Row) : BinsResult :=
  if pdf.isEmpty then BinsResult.empty
  else
    let tmp := binsTmp pdf
    if tmp.isEmpty then BinsResult.empty
    else
      match listMax? (tmp.filterMap Row.days_since_issue) with
      | none => BinsResult.empty
      | some m =>
        if (edgesOf m).length < 2 ∨
            tmp.any (fun r =>
              match r.days_since_issue with
              | some d => (binIdxOf m d).isNone
              | none => false) then
          BinsResult.error
        else
          BinsResult.ok ((List.range (binCountOf m)).map (fun (i : Nat) =>
            (30 * (i : Int), (rowsInBin m tmp i).length, sumAmt (rowsInBin m tmp i))))

/-! ### The status × type rollup (`charts.py`, `_metrics_rollup`)

`_metrics_rollup` receives an arbitrary frame with the three columns, so
its row type keeps raw `Value` cells. -/

/-- A row as `_metrics_rollup` sees it. -/
structure MRow where
  past_due : Value
  invoice_type : Value
  total_amount_with_taxes : Value
deriving DecidableEq, Repr

/-- `tmp["past_due"].map({True: "Past Due", False: "Current"})`: non-boolean
values map to missing. -/
def statusOf (v : Value) : Value :=
  match v with
  | Value.bool true => Value.str "Past Due"
  | Value.bool false => Value.str "Current"
  | _ => Value.null

/-- The numeric content of a non-null amount cell. -/
def qOf (v : Value) : ℚ :=
  match v with
  | Value.num q => q
  | _ => 0

/-- `dropna(subset=[...])` followed by
`tmp[tmp["invoice_type"].isin(["Regular", "One Shot"])]`. -/
def metricsTmp (df : List MRow) : List MRow :=
  (df.filter (fun r =>
    !(r.past_due == Value.null) && !(r.invoice_type == Value.null)
      && !(r.total_amount_with_taxes == Value.null))).filter
    (fun r => r.invoice_type == Value.str "Regular" || r.invoice_type == Value.str "One Shot")

/-- The groupby key `(status, invoice_type)`; `none` when the status is
missing (pandas `groupby` drops rows with a missing key). -/
def rollupKey (r : MRow) : Option (String × String) :=
  match statusOf r.past_due, r.invoice_type with
  | Value.str s, Value.str t => some (s, t)
  | _, _ => none

/-- The distinct observed group keys. -/
def observedKeys (df : List MRow) : List (String × String) :=
  ((metricsTmp df).filterMap rollupKey).dedup

/-- The rows of one observed group. -/
def groupRowsM (df : List MRow) (k : String × String) : List MRow :=
  (metricsTmp df).filter (fun r => rollupKey r == some k)

/-- `tmp.groupby(["status", "invoice_type"]).agg(amount=..., count=...)`:
one entry per observed key with the amount sum and the group size. -/
def rollupObserved (df : List MRow) : List ((String × String) × ℚ × Nat) :=
  (observedKeys df).map (fun k =>
    (k, ((groupRowsM df k).map (fun r => qOf r.total_amount_with_taxes)).sum,
     (groupRowsM df k).length))

/-- `pd.MultiIndex.from_product([["Current", "Past Due"], ["Regular", "One
Shot"]])`. -/
def fullCombos : List (String × String) :=
  [("Current", "Regular"), ("Current", "One Shot"),
   ("Past Due", "Regular"), ("Past Due", "One Shot")]

/-- `_metrics_rollup` (charts.py lines 242-278): the observed rollup
left-merged onto the full 2×2 combination frame, missing combinations
filled with amount 0.0 and count 0. -/
def metricsRollup (df : List MRow) : List ((String × String) × ℚ × Nat) :=
  fullCombos.map (fun k =>
    match (rollupObserved df).find? (fun e => e.1 == k) with
    | some e => (k, e.2)
    | none => (k, 0, 0))

/-! ### Path sanitization and report partitioning (`reporting/report.py`) -/

/-- Replace every maximal run of characters satisfying `p` with a single
`rep` character — the effect of `re.sub(r"[CLASS]+", rep, s)`.  The boolean
argument records whether the previous character was part of a replaced
run. -/
def replRunsAux (p : Char → Bool) (rep : Char) : Bool → List Char → List Char
  | _, [] => []
  | inRun, c :: cs =>
    if p c then
      (if inRun then replRunsAux p rep true cs else rep :: replRunsAux p rep true cs)
    else c :: replRunsAux p rep false cs

/-- `re.sub` of a one-character-class `+` pattern. -/
def replRuns (p : Char → Bool) (rep : Char) (l : List Char) : List Char :=
  replRunsAux p rep false l

/-- The character class `[\w\-. ]` of the first substitution in
`sanitize_path_part`. -/
def sanitizeAllowed (c : Char) : Bool :=
  pyWord c || c == '-' || c == '.' || c == ' '

/-- Python `str.strip(chars)`: drop the given characters from both ends. -/
def stripEdges (p : Char → Bool) (l : List Char) : List Char :=
  ((l.dropWhile p).reverse.dropWhile p).reverse

/-- `sanitize_path_part` (report.py lines 11-19): strip whitespace, replace
runs outside `[\w\-. ]` with `_`, replace whitespace runs with `_`, strip
`.`/`_`/`-` from the ends, truncate to `maxlen`, and replace an empty
result with `"(null)"`. -/
def sanitize_path_part (maxlen : Nat) (s : String) : String :=
  let cs := pyStripList s.data
  let cs := replRuns (fun c => !sanitizeAllowed c) '_' cs
  let cs := replRuns pySpace '_' cs
  let cs := stripEdges (fun c => c == '.' || c == '_' || c == '-') cs
  let cs := cs.take maxlen
  if cs.isEmpty then "(null)" else String.mk cs

/-- The distinct grouping keys of a column, one per `groupby` group.
(pandas iterates the groups in sorted key order; the claims proved below
are invariant under the order of the groups, so first-occurrence order is
used.) -/
def keysOf (key : Row → String) (l : List Row) : List String :=
  (l.map key).dedup

/-- The rows of one `groupby` group. -/
def groupRows (key : Row → String) (k : String) (l : List Row) : List Row :=
  l.filter (fun r => key r == k)

/-- A buyer node of the consolidated report context
(`generate_html`, report.py lines 61-89). -/
structure BuyerNode where
  buyer : String
  subtotal : ℚ
deriving DecidableEq, Repr

/-- A vendor node of the consolidated report context. -/
structure VendorNode where
  vendor : String
  buyers : List BuyerNode
  vendor_total : ℚ
deriving DecidableEq, Repr

/-- The `vendors` context list built by `generate_html`: per vendor group
the amount total, and per nested buyer group the subtotal. -/
def generateHtmlVendors (df : List Row) : List VendorNode :=
  (keysOf Row.vendor_company_name df).map (fun v =>
    let dfv := groupRows Row.vendor_company_name v df
    { vendor := v
      vendor_total := sumAmt dfv
      buyers := (keysOf Row.buyer_company_name dfv).map (fun b =>
        { buyer := b, subtotal := sumAmt (groupRows Row.buyer_company_name b dfv) }) })

/-- `grand_total = float(df[amount_col].sum())`. -/
def grandTotal (df : List Row) : ℚ :=
  sumAmt df

/-- The output location of one leaf report of
`generate_html_partitioned` (report.py lines 144-175), as path components
under the output root:
`sanitize_path_part(vendor)/sanitize_path_part(buyer)/report.html`. -/
def leafPath (vendor buyer : String) : List String :=
  [sanitize_path_part 80 vendor, sanitize_path_part 80 buyer, "report.html"]

/-- One `index_entries` element of `generate_html_partitioned`. -/
structure IndexEntry where
  vendor : String
  buyer : String
  buyer_total : ℚ
  href : List String
deriving DecidableEq, Repr

/-- The (vendor, buyer) group keys of the two-level `groupby` iteration. -/
def vendorBuyerPairs (df : List Row) : List (String × String) :=
  (keysOf Row.vendor_company_name df).flatMap (fun v =>
    (keysOf Row.buyer_company_name (groupRows Row.vendor_company_name v df)).map (fun b => (v, b)))

/-- The index entries built by `generate_html_partitioned`: one per
(vendor, buyer) group, carrying the buyer total and the leaf location. -/
def partitionIndexEntries (df : List Row) : List IndexEntry :=
  (keysOf Row.vendor_company_name df).flatMap (fun v =>
    let dfv := groupRows Row.vendor_company_name v df
    (keysOf Row.buyer_company_name dfv).map (fun b =>
      { vendor := v, buyer := b,
        buyer_total := sumAmt (groupRows Row.buyer_company_name b dfv),
        href := leafPath v b }))

/-! ## Shared lemmas -/

/-- The `is_internal` value of `apply_filters` is the membership test of the
specification: the empty-universe special case of the source coincides with
membership in the empty set. -/
theorem rowIsInternal_eq_claim (df : List Row) (f : Filters) (r : Row) :
    rowIsInternal df f r = claimIsInternal df r := by
  simp only [rowIsInternal, claimIsInternal]
  rcases h : vendorNumbersUniverse df with _ | ⟨a, l⟩ <;>
    cases hx : extractCompanyNumberStr r.buyer_company_name <;> simp [h, hx]

/-- Idempotence of the date coercion on its own image. -/
theorem pdToDatetimeDate_idem (v : Value) :
    pdToDatetimeDate (pdToDatetimeDate v) = pdToDatetimeDate v := by
  cases v with
  | null => rfl
  | str s => simp only [pdToDatetimeDate]; cases parseIsoDate s <;> rfl
  | num q => rfl
  | bool b => rfl
  | date d => rfl

/-- Idempotence of the numeric coercion on its own image. -/
theorem pdToNumeric_idem (v : Value) :
    pdToNumeric (pdToNumeric v) = pdToNumeric v := by
  cases v with
  | null => rfl
  | str s => simp only [pdToNumeric]; cases parseDecimal s <;> rfl
  | num q => rfl
  | bool b => cases b <;> rfl
  | date d => rfl

/-- A boolean already produced by the truthy test re-coerces to itself. -/
theorem pastDueTruthy_bool (b : Bool) : pastDueTruthy (Value.bool b) = b := by
  cases b <;> decide

/-- The numeric coercion only produces numbers or missing values. -/
theorem pdToNumeric_cases (v : Value) :
    (∃ q, pdToNumeric v = Value.num q) ∨ pdToNumeric v = Value.null := by
  cases v with
  | null => exact Or.inr rfl
  | str s =>
    simp only [pdToNumeric]
    cases parseDecimal s with
    | none => exact Or.inr rfl
    | some q => exact Or.inl ⟨q, rfl⟩
  | num q => exact Or.inl ⟨q, rfl⟩
  | bool b => exact Or.inl ⟨_, rfl⟩
  | date d => exact Or.inr rfl

/-- One application of `normalize_invoices` reaches a fixed point of the
row transform. -/
theorem normalizeRow_idem (r : RawRow) : normalizeRow (normalizeRow r) = normalizeRow r := by
  simp only [normalizeRow, RawRow.mk.injEq]
  refine ⟨?_, ?_, ?_, ?_, ?_, ?_, ?_, ?_, ?_, ?_⟩
  · exact pdToDatetimeDate_idem _
  · exact pdToNumeric_idem _
  · rcases pdToNumeric_cases r.total_amount_with_taxes with ⟨q, h⟩ | h <;> rw [h] <;> rfl
  · exact congrArg Value.bool (pastDueTruthy_bool _)
  · rfl
  · rfl
  · rfl
  · rfl
  · rfl
  · rfl

/-- Sum of a mapped list split along a boolean predicate. -/
theorem sum_filter_split {α : Type} (p : α → Bool) (f : α → ℚ) (l : List α) :
    ((l.filter p).map f).sum + ((l.filter (fun a => !p a)).map f).sum = (l.map f).sum := by
  induction l with
  | nil => simp
  | cons a t ih => cases h : p a <;> simp [List.filter_cons, h] <;> linarith

/-- Summing group sums over any duplicate-free list of keys that covers the
rows recovers the total sum. -/
theorem sum_over_cover {α : Type} (key : α → String) (f : α → ℚ) :
    ∀ (ks : List String) (l : List α), ks.Nodup → (∀ r ∈ l, key r ∈ ks) →
      (ks.map (fun k => ((l.filter (fun r => key r == k)).map f).sum)).sum = (l.map f).sum := by
  intro ks
  induction ks with
  | nil =>
    intro l _ hcov
    cases l with
    | nil => simp
    | cons a t => exact absurd (hcov a (List.mem_cons_self a t)) (List.not_mem_nil _)
  | cons k ks ih =>
    intro l hnd hcov
    have hk : k ∉ ks := (List.nodup_cons.mp hnd).1
    have hnd' : ks.Nodup := (List.nodup_cons.mp hnd).2
    have hcov' : ∀ r ∈ l.filter (fun r => !(key r == k)), key r ∈ ks := by
      intro r hr
      have hm := List.mem_filter.mp hr
      rcases List.mem_cons.mp (hcov r hm.1) with h | h
      · exfalso
        have h2 := hm.2
        rw [h] at h2
        simp at h2
      · exact h
    have hrec := ih (l.filter (fun r => !(key r == k))) hnd' hcov'
    have hfix : ∀ k' ∈ ks,
        (l.filter (fun r => !(key r == k))).filter (fun r => key r == k') =
          l.filter (fun r => key r == k') := by
      intro k' hk'
      have hkk : k' ≠ k := fun hq => hk (hq ▸ hk')
      rw [List.filter_filter]
      apply List.filter_congr
      intro r _
      by_cases h : key r = k'
      · simp [h, hkk]
      · simp [h]
    have hmap : ks.map (fun k' => ((l.filter (fun r => key r == k')).map f).sum)
        = ks.map (fun k' =>
            (((l.filter (fun r => !(key r == k))).filter (fun r => key r == k')).map f).sum) :=
      List.map_congr_left (fun k' hk' => by rw [hfix k' hk'])
    simp only [List.map_cons, List.sum_cons]
    rw [hmap, hrec]
    exact sum_filter_split (fun r => key r == k) f l

/-- Summing the group sums of every `groupby` group recovers the total. -/
theorem sum_over_groups (key : Row → String) (f : Row → ℚ) (l : List Row) :
    ((keysOf key l).map (fun k => ((groupRows key k l).map f).sum)).sum = (l.map f).sum :=
  sum_over_cover key f (keysOf key l) l (List.nodup_dedup _)
    (fun _r hr => List.mem_dedup.mpr (List.mem_map_of_mem key hr))

/-- `map` distributes over `flatMap`. -/
theorem mapFlatMap {α β γ : Type} (h : β → γ) (f : α → List β) (l : List α) :
    (l.flatMap f).map h = l.flatMap (fun a => (f a).map h) := by
  induction l with
  | nil => rfl
  | cons a t ih => simp [List.flatMap_cons, ih]

/-- The sum of a flattened family is the sum of the family sums. -/
theorem sumFlatMap {α : Type} (g : α → List ℚ) (l : List α) :
    (l.flatMap g).sum = (l.map (fun a => (g a).sum)).sum := by
  induction l with
  | nil => rfl
  | cons a t ih => simp [List.flatMap_cons, ih]

/-- `find?` over an association list keyed by its own elements. -/
theorem find?_keyed (g : (String × String) → ℚ × Nat) (k : String × String) :
    ∀ (ks : List (String × String)),
      (ks.map (fun j => (j, g j))).find? (fun e => e.1 == k) =
        if k ∈ ks then some (k, g k) else none := by
  intro ks
  induction ks with
  | nil => simp
  | cons a t ih =>
    simp only [List.map_cons]
    by_cases h : a = k
    · subst h
      rw [List.find?_cons_of_pos _ (by simp)]
      simp
    · rw [List.find?_cons_of_neg _ (by simp [h]), ih]
      have h' : ¬ k = a := fun hq => h hq.symm
      by_cases hm : k ∈ t <;> simp [hm, List.mem_cons, h']

/-- `groupRowsM` is empty exactly on unobserved keys. -/
theorem groupRowsM_of_not_observed (df : List MRow) (k : String × String)
    (hk : k ∉ observedKeys df) : groupRowsM df k = [] := by
  rw [groupRowsM, List.filter_eq_nil_iff]
  intro r hr hcontra
  apply hk
  have : rollupKey r = some k := by simpa using hcontra
  exact List.mem_dedup.mpr (List.mem_filterMap.mpr ⟨r, hr, this⟩)

/-- `_metrics_rollup` computes, for each of the four combinations, the
amount sum and row count of the matching cleaned rows (zero when no row
matches). -/
theorem metricsRollup_eq (df : List MRow) :
    metricsRollup df = fullCombos.map (fun k =>
      (k, ((groupRowsM df k).map (fun r => qOf r.total_amount_with_taxes)).sum,
       (groupRowsM df k).length)) := by
  unfold metricsRollup rollupObserved
  apply List.map_congr_left
  intro k _
  rw [find?_keyed]
  by_cases hk : k ∈ observedKeys df
  · simp [hk]
  · simp [hk, groupRowsM_of_not_observed df k hk]

/-- The seed of a `max` fold bounds the fold from below. -/
theorem le_foldl_max (xs : List Int) : ∀ a : Int, a ≤ xs.foldl max a := by
  induction xs with
  | nil => intro a; exact le_refl a
  | cons b t ih => intro a; exact le_trans (le_max_left a b) (ih (max a b))

/-- Every list element bounds a `max` fold from below. -/
theorem mem_le_foldl_max (xs : List Int) : ∀ (a x : Int), x ∈ xs → x ≤ xs.foldl max a := by
  induction xs with
  | nil => intro a x hx; exact absurd hx (List.not_mem_nil x)
  | cons b t ih =>
    intro a x hx
    rcases List.mem_cons.mp hx with rfl | hx
    · exact le_trans (le_max_right a x) (le_foldl_max t (max a x))
    · exact ih (max a b) x hx

/-- `series.max()` bounds every series element. -/
theorem listMax?_ge (l : List Int) (m x : Int) (hm : listMax? l = some m) (hx : x ∈ l) :
    x ≤ m := by
  cases l with
  | nil => exact absurd hx (List.not_mem_nil x)
  | cons a t =>
    have hm' : t.foldl max a = m := by simpa [listMax?] using hm
    rcases List.mem_cons.mp hx with rfl | hx
    · exact hm' ▸ le_foldl_max t x
    · exact hm' ▸ mem_le_foldl_max t a x hx

/-- The aging rollup has `floor(max_days / 30) + 1` bins. -/
theorem binCountOf_eq (m : Int) (hm : 0 ≤ m) : binCountOf m = (Int.fdiv m 30 + 1).toNat := by
  simp only [binCountOf, edgesOf, range30, maxEdgeOf, List.length_map, List.length_range,
    Int.fdiv_eq_ediv _ (by norm_num : (0:Int) ≤ 30)]
  split
  · omega
  · omega

/-- Pairing a strictly increasing arithmetic enumeration with its tail. -/
theorem zip_tail_range' (f : Nat → Int) : ∀ (n a : Nat),
    ((List.range' a n).map f).zip (((List.range' a n).map f).tail)
      = (List.range' a (n - 1)).map (fun i => (f i, f (i + 1))) := by
  intro n
  induction n with
  | zero => intro a; simp
  | succ k ih =>
    intro a
    cases k with
    | zero => simp [List.range'_succ]
    | succ k2 =>
      have h1 : List.range' a (k2 + 1 + 1) = a :: List.range' (a + 1) (k2 + 1) :=
        List.range'_succ a (k2 + 1) 1
      have h2 : List.range' (a + 1) (k2 + 1) = (a + 1) :: List.range' (a + 1 + 1) k2 :=
        List.range'_succ (a + 1) k2 1
      have ih' := ih (a + 1)
      rw [h2] at ih'
      simp only [List.map_cons, List.tail_cons] at ih'
      rw [h1, h2]
      simp only [List.map_cons, List.tail_cons, List.zip_cons_cons]
      rw [ih']
      rw [show k2 + 1 + 1 - 1 = k2 + 1 from rfl, show k2 + 1 - 1 = k2 from rfl,
        List.range'_succ, List.map_cons]

/-- The cut intervals are the contiguous width-30 half-open intervals
starting at 0, in ascending order. -/
theorem intervalsOf_eq (m : Int) :
    intervalsOf m =
      (List.range (binCountOf m)).map (fun (i : Nat) => (30 * (i : Int), 30 * (i : Int) + 30)) := by
  simp only [intervalsOf, binCountOf, edgesOf, range30, List.range_eq_range', List.length_map,
    List.length_range']
  rw [zip_tail_range' (fun (i : Nat) => 30 * (i : Int))]
  apply List.map_congr_left
  intro i _
  simp only [Prod.mk.injEq, true_and, eq_self_iff_true]
  push_cast
  ring

/-- `List.contains` is the decision procedure for membership. -/
theorem contains_eq_decide_mem (l : List String) (x : String) :
    l.contains x = decide (x ∈ l) := by
  by_cases h : x ∈ l <;> simp [h]

/-- A conditionally applied filter is the filter whose predicate is trivial
when the condition fails. -/
theorem filter_ite {α : Type} (c : Prop) [Decidable c] (p : α → Bool) (l : List α) :
    (if c then l.filter p else l) = l.filter (fun a => !decide c || p a) := by
  by_cases h : c <;> simp [h]

/-- A `takeWhile` prefix satisfies its predicate throughout. -/
theorem all_takeWhile (p : Char → Bool) (l : List Char) : (l.takeWhile p).all p = true := by
  induction l with
  | nil => rfl
  | cons a t ih => by_cases h : p a <;> simp [List.takeWhile_cons, h, ih]

/-- The head of a `dropWhile` residue falsifies the predicate. -/
theorem head_dropWhile_false (p : Char → Bool) (l : List Char) (c : Char) (t : List Char)
    (h : l.dropWhile p = c :: t) : p c = false := by
  have hh := List.head?_dropWhile_not p l
  rw [h] at hh
  simpa using hh

/-- `dropWhile` drops exactly the `takeWhile` prefix. -/
theorem dropWhile_eq_drop (p : Char → Bool) (l : List Char) :
    l.dropWhile p = l.drop (l.takeWhile p).length := by
  induction l with
  | nil => rfl
  | cons a t ih =>
    by_cases h : p a <;> simp [List.takeWhile_cons, List.dropWhile_cons, h, ih]

/-- `matchDigits` succeeds on a width within the leading digit run. -/
theorem matchDigits_le (k : Nat) (run tail : List Char) (hall : run.all pyDigit = true)
    (hk : k ≤ run.length) :
    matchDigits k (run ++ tail) = some (run.take k, run.drop k ++ tail) := by
  have htake : (run ++ tail).take k = run.take k := by
    rw [List.take_append_eq_append_take, Nat.sub_eq_zero_of_le hk]
    simp
  have hdrop : (run ++ tail).drop k = run.drop k ++ tail := by
    rw [List.drop_append_eq_append_drop, Nat.sub_eq_zero_of_le hk]
    simp
  unfold matchDigits
  rw [if_pos]
  · rw [htake, hdrop]
  · constructor
    · rw [htake]
      simp [List.length_take]
      omega
    · rw [htake]
      refine List.all_eq_true.mpr fun c hc => ?_
      exact List.all_eq_true.mp hall c (List.take_subset k run hc)

/-- `matchDigits` fails on a width exceeding the leading digit run. -/
theorem matchDigits_gt (k : Nat) (run tail : List Char)
    (hhead : ∀ c t', tail = c :: t' → pyDigit c = false) (hk : run.length < k) :
    matchDigits k (run ++ tail) = none := by
  unfold matchDigits
  rw [if_neg]
  rcases htail : tail with _ | ⟨c, t'⟩
  · rintro ⟨hlen, -⟩
    rw [List.append_nil, List.take_of_length_le (le_of_lt hk)] at hlen
    omega
  · rintro ⟨hlen, hdig⟩
    have hc : c ∈ (run ++ c :: t').take k := by
      rw [List.take_append_eq_append_take]
      refine List.mem_append.mpr (Or.inr ?_)
      obtain ⟨j, hj⟩ : ∃ j, k - run.length = j + 1 := ⟨k - run.length - 1, by omega⟩
      rw [hj, List.take_succ_cons]
      exact List.mem_cons_self c _
    have hcd := List.all_eq_true.mp hdig c hc
    rw [hhead c t' htail] at hcd
    exact Bool.false_ne_true hcd

/-- A boundary inside the digit run fails: the next character is a digit,
hence a word character. -/
theorem boundary_mid (k : Nat) (run tail : List Char) (hall : run.all pyDigit = true)
    (hk : k < run.length) : boundaryAfter (run.drop k ++ tail) = false := by
  rcases hdk : run.drop k with _ | ⟨c, t'⟩
  · have := congrArg List.length hdk
    simp [List.length_drop] at this
    omega
  · have hcmem : c ∈ run := by
      have : c ∈ run.drop k := by simp [hdk]
      exact List.mem_of_mem_drop this
    have hd : pyDigit c = true := List.all_eq_true.mp hall c hcmem
    have hw : pyWord c = true := by
      have : c.isAlphanum = true := by
        simp [Char.isAlphanum]
        exact Or.inr hd
      simp [pyWord, this]
    simp [hdk, boundaryAfter, hw]

/-- One backtracking attempt of the digit branch succeeds exactly at the
width of the whole leading digit run, and only at a word boundary. -/
theorem digitTry_eq (k : Nat) (run tail : List Char) (hall : run.all pyDigit = true)
    (hhead : ∀ c t', tail = c :: t' → pyDigit c = false) :
    digitTry k (run ++ tail) =
      if k = run.length ∧ boundaryAfter tail then some run else none := by
  rcases lt_trichotomy k run.length with h | h | h
  · rw [digitTry, matchDigits_le k run tail hall (le_of_lt h), if_neg]
    · simp [boundary_mid k run tail hall h]
    · rintro ⟨rfl, -⟩
      omega
  · rw [digitTry, matchDigits_le k run tail hall (le_of_eq h), h]
    simp only [List.take_length, List.drop_length, List.nil_append]
    by_cases hb : boundaryAfter tail <;> simp [hb, h]
  · rw [digitTry, matchDigits_gt k run tail hhead h, if_neg]
    rintro ⟨rfl, -⟩
    omega

/-- The greedy `\d{7,10}\b` branch succeeds exactly when the leading digit
run has width 7 to 10 and ends at a word boundary, returning the run. -/
theorem digitBranch_eq (cs : List Char) :
    digitBranch cs =
      if 7 ≤ (cs.takeWhile pyDigit).length ∧ (cs.takeWhile pyDigit).length ≤ 10 ∧
          boundaryAfter (cs.dropWhile pyDigit) then
        some (cs.takeWhile pyDigit)
      else none := by
  have hsplit := List.takeWhile_append_dropWhile pyDigit cs
  have hall := all_takeWhile pyDigit cs
  have hhead : ∀ c t', cs.dropWhile pyDigit = c :: t' → pyDigit c = false := fun c t' h =>
    head_dropWhile_false pyDigit cs c t' h
  have e10 : digitTry 10 cs =
      if 10 = (cs.takeWhile pyDigit).length ∧ boundaryAfter (cs.dropWhile pyDigit) then
        some (cs.takeWhile pyDigit) else none := by
    conv_lhs => rw [← hsplit]
    exact digitTry_eq 10 _ _ hall hhead
  have e9 : digitTry 9 cs =
      if 9 = (cs.takeWhile pyDigit).length ∧ boundaryAfter (cs.dropWhile pyDigit) then
        some (cs.takeWhile pyDigit) else none := by
    conv_lhs => rw [← hsplit]
    exact digitTry_eq 9 _ _ hall hhead
  have e8 : digitTry 8 cs =
      if 8 = (cs.takeWhile pyDigit).length ∧ boundaryAfter (cs.dropWhile pyDigit) then
        some (cs.takeWhile pyDigit) else none := by
    conv_lhs => rw [← hsplit]
    exact digitTry_eq 8 _ _ hall hhead
  have e7 : digitTry 7 cs =
      if 7 = (cs.takeWhile pyDigit).length ∧ boundaryAfter (cs.dropWhile pyDigit) then
        some (cs.takeWhile pyDigit) else none := by
    conv_lhs => rw [← hsplit]
    exact digitTry_eq 7 _ _ hall hhead
  by_cases hb : boundaryAfter (cs.dropWhile pyDigit)
  case neg =>
    simp [digitBranch, e10, e9, e8, e7, hb]
  case pos =>
  by_cases h10 : (cs.takeWhile pyDigit).length = 10
  · simp [digitBranch, e10, h10, hb]
  · by_cases h9 : (cs.takeWhile pyDigit).length = 9
    · simp [digitBranch, e10, e9, h9, hb]
    · by_cases h8 : (cs.takeWhile pyDigit).length = 8
      · simp [digitBranch, e10, e9, e8, h8, hb]
      · by_cases h7 : (cs.takeWhile pyDigit).length = 7
        · simp [digitBranch, e10, e9, e8, e7, h7, hb]
        · have n10 : ¬(10 = (cs.takeWhile pyDigit).length) := fun h => h10 h.symm
          have n9 : ¬(9 = (cs.takeWhile pyDigit).length) := fun h => h9 h.symm
          have n8 : ¬(8 = (cs.takeWhile pyDigit).length) := fun h => h8 h.symm
          have n7 : ¬(7 = (cs.takeWhile pyDigit).length) := fun h => h7 h.symm
          have hcond : ¬(7 ≤ (cs.takeWhile pyDigit).length ∧
              (cs.takeWhile pyDigit).length ≤ 10 ∧ boundaryAfter (cs.dropWhile pyDigit)) := by
            rintro ⟨hA, hB, -⟩
            omega
          simp [digitBranch, e10, e9, e8, e7, n10, n9, n8, n7, hcond]

/-- The `\d{4}-\d{4}\b` branch succeeds exactly when the input starts with
four digits, a hyphen and four digits ending at a word boundary. -/
theorem hyphenBranch_eq (cs : List Char) :
    hyphenBranch cs =
      if (cs.take 4).length = 4 ∧ (cs.take 4).all pyDigit ∧ (cs.drop 4).take 1 = ['-'] ∧
          ((cs.drop 5).take 4).length = 4 ∧ ((cs.drop 5).take 4).all pyDigit ∧
          boundaryAfter (cs.drop 9) then
        some (cs.take 4 ++ '-' :: (cs.drop 5).take 4)
      else none := by
  by_cases h1 : (cs.take 4).length = 4 ∧ (cs.take 4).all pyDigit
  case neg =>
    have hmd : matchDigits 4 cs = none := by
      unfold matchDigits
      rw [if_neg h1]
    have hL : hyphenBranch cs = none := by
      simp [hyphenBranch, hmd]
    rw [hL, if_neg]
    rintro ⟨ha, hb, -⟩
    exact h1 ⟨ha, hb⟩
  case pos =>
  have hmd : matchDigits 4 cs = some (cs.take 4, cs.drop 4) := by
    unfold matchDigits
    rw [if_pos h1]
  rcases hdrop : cs.drop 4 with _ | ⟨c, rest2⟩
  · have hL : hyphenBranch cs = none := by
      simp [hyphenBranch, hmd, hdrop]
    rw [hL, if_neg]
    rintro ⟨-, -, habs, -⟩
    simp [hdrop] at habs
  · have hr2 : cs.drop 5 = rest2 := by
      have h : List.drop 1 (List.drop 4 cs) = List.drop 5 cs := List.drop_drop 1 4 cs
      rw [← h, hdrop, List.drop_one, List.tail_cons]
    have h59 : cs.drop 9 = rest2.drop 4 := by
      have h : List.drop 4 (List.drop 5 cs) = List.drop 9 cs := List.drop_drop 4 5 cs
      rw [← h, hr2]
    by_cases hc : c = '-'
    case neg =>
      have hL : hyphenBranch cs = none := by
        simp [hyphenBranch, hmd, hdrop, hc]
      rw [hL, if_neg]
      rintro ⟨-, -, habs, -⟩
      simp [hdrop] at habs
      exact hc habs
    case pos =>
    subst hc
    by_cases h2 : (rest2.take 4).length = 4 ∧ (rest2.take 4).all pyDigit
    case neg =>
      have hmd2 : matchDigits 4 rest2 = none := by
        unfold matchDigits
        rw [if_neg h2]
      have hL : hyphenBranch cs = none := by
        simp [hyphenBranch, hmd, hdrop, hmd2]
      rw [hL, if_neg]
      rintro ⟨-, -, -, ha, hbdig, -⟩
      rw [hr2] at ha hbdig
      exact h2 ⟨ha, hbdig⟩
    case pos =>
    have hmd2 : matchDigits 4 rest2 = some (rest2.take 4, rest2.drop 4) := by
      unfold matchDigits
      rw [if_pos h2]
    by_cases hb : boundaryAfter (rest2.drop 4)
    case pos =>
      have hL : hyphenBranch cs = some (cs.take 4 ++ '-' :: rest2.take 4) := by
        simp [hyphenBranch, hmd, hdrop, hmd2, hb]
      rw [hL, if_pos ⟨h1.1, h1.2, by simp [hdrop], by rw [hr2]; exact h2.1,
        by rw [hr2]; exact h2.2, by rw [h59]; exact hb⟩, hr2]
    case neg =>
      have hL : hyphenBranch cs = none := by
        simp [hyphenBranch, hmd, hdrop, hmd2, hb]
      rw [hL, if_neg]
      rintro ⟨-, -, -, -, -, habs⟩
      rw [h59] at habs
      exact hb habs

/-- If stripping leaves nothing, dropping leading whitespace leaves
nothing either. -/
theorem dropWhile_pySpace_of_strip_nil (l : List Char) (h : pyStripList l = []) :
    l.dropWhile pySpace = [] := by
  rcases hA : l.dropWhile pySpace with _ | ⟨c, t⟩
  · rfl
  · exfalso
    have h2 : ((l.dropWhile pySpace).reverse).dropWhile pySpace = [] := by
      unfold pyStripList at h
      exact List.reverse_eq_nil_iff.mp h
    have hc : pySpace c = true := by
      refine List.dropWhile_eq_nil_iff.mp h2 c ?_
      simp [hA]
    have hnc : pySpace c = false := head_dropWhile_false pySpace l c t hA
    rw [hnc] at hc
    exact Bool.false_ne_true hc

/-- The embedded regex matcher agrees with the §4.2 contract on every
string. -/
theorem companyNumMatch_eq_claim (s : String) : companyNumMatch s = claimCompanyToken s := by
  unfold companyNumMatch claimCompanyToken
  dsimp only
  rw [hyphenBranch_eq, digitBranch_eq, ← dropWhile_eq_drop pyDigit (s.data.dropWhile pySpace)]
  by_cases hA : ((s.data.dropWhile pySpace).take 4).length = 4 ∧
      ((s.data.dropWhile pySpace).take 4).all pyDigit ∧
      ((s.data.dropWhile pySpace).drop 4).take 1 = ['-'] ∧
      (((s.data.dropWhile pySpace).drop 5).take 4).length = 4 ∧
      (((s.data.dropWhile pySpace).drop 5).take 4).all pyDigit ∧
      boundaryAfter ((s.data.dropWhile pySpace).drop 9)
  · simp only [if_pos hA]
  · simp only [if_neg hA]
    by_cases hB : 7 ≤ ((s.data.dropWhile pySpace).takeWhile pyDigit).length ∧
        ((s.data.dropWhile pySpace).takeWhile pyDigit).length ≤ 10 ∧
        boundaryAfter ((s.data.dropWhile pySpace).dropWhile pyDigit)
    · simp only [if_pos hB]
    · simp only [if_neg hB]

/-! ## Claim theorems -/

/-- C8: normalization is idempotent — a second application of
`normalize_invoices` leaves every field of every row unchanged. -/
theorem c8_normalize_idempotent (df : List RawRow) :
    normalizeTable (normalizeTable df) = normalizeTable df := by
  simp only [normalizeTable, List.map_map]
  exact List.map_congr_left fun r _ => normalizeRow_idem r

/-- C1: `apply_filters` returns exactly the rows of the input table
satisfying the conjunction of the six predicates of §4.3; in particular the
result is a sublist (hence subset) of the input. -/
theorem c1_filter_conjunction (df : List Row) (f : Filters) :
    applyFilters df f = df.filter (claimPassesFilters df f) ∧
    (applyFilters df f).Sublist df := by
  have hmain : applyFilters df f = df.filter (claimPassesFilters df f) := by
    simp only [applyFilters]
    rw [filter_ite, filter_ite, filter_ite]
    by_cases hwi : "Internal" ∈ f.internal_external <;>
      by_cases hwe : "External" ∈ f.internal_external <;>
        simp only [contains_eq_decide_mem, hwi, hwe, decide_True, decide_False,
          Bool.not_true, Bool.not_false, Bool.and_true, Bool.and_false, Bool.true_and,
          Bool.false_and, if_true, if_false, List.filter_filter] <;>
        (apply List.filter_congr
         intro r _
         rw [Bool.eq_iff_iff]) <;>
        cases hid : r.issue_date <;> cases hds : r.days_since_issue <;>
          simp [claimPassesFilters, optGe, optLe, hid, hds, hwi, hwe,
            rowIsInternal_eq_claim df f r] <;>
          tauto
  exact ⟨hmain, hmain ▸ List.filter_sublist df⟩

/-- C2: the Internal/External classification assigned by `apply_filters` to
a fixed row of a table is the same under any two filter configurations, and
equals membership of the buyer's extracted company number in the
vendor-number set of the full unfiltered table. -/
theorem c2_classification_stable (df : List Row) (f1 f2 : Filters) (r : Row) :
    rowIsInternal df f1 r = rowIsInternal df f2 r ∧
    rowIsInternal df f1 r = claimIsInternal df r :=
  ⟨(rowIsInternal_eq_claim df f1 r).trans (rowIsInternal_eq_claim df f2 r).symm,
   rowIsInternal_eq_claim df f1 r⟩

/-- C6 counterexample: the sanitizer does not map `"Café & Co."` to
`"Café_Co"` — the `&` becomes `"_"` and the two spaces around it become two
further `"_"`, which are not collapsed with it. -/
theorem c6_counterexample : sanitize_path_part 80 "Café & Co." ≠ "Café_Co" := by decide

/-- C6 amended: the sanitizer replaces each maximal run of characters
outside `[\w\-. ]` with `"_"`, then each whitespace run with `"_"` (runs of
underscores produced by the first step are not collapsed), strips
`.`/`_`/`-` from the ends, truncates to 80 characters and replaces an empty
result with `"(null)"`; on `"Café & Co."` it returns `"Café___Co"`. -/
theorem c6_amended :
    sanitize_path_part 80 "Café & Co." = "Café___Co" ∧
    (∀ s, (sanitize_path_part 80 s).length ≤ 80) ∧
    (∀ s, sanitize_path_part 80 s ≠ "") ∧
    sanitize_path_part 80 "" = "(null)" ∧
    sanitize_path_part 80 " .-_ " = "(null)" := by
  refine ⟨by decide, ?_, ?_, by decide, by decide⟩
  · intro s
    simp only [sanitize_path_part]
    split
    · decide
    · simpa [String.length] using List.length_take_le 80 _
  · intro s
    simp only [sanitize_path_part]
    split
    · decide
    · next h =>
      intro hEq
      exact h (by simpa using congrArg String.data hEq)

/-- C5 counterexample: two distinct (vendor, buyer) group keys of a
concrete table whose buyer names sanitize to the same token are written to
the same leaf path, so one leaf report overwrites the other. -/
theorem c5_counterexample :
    (("V", "A.") : String × String) ≠ ("V", "A-") ∧
    ("V", "A.") ∈ vendorBuyerPairs
      [Row.mk (some 0) (some 1) "Regular" "A." "V" "" true 10,
       Row.mk (some 0) (some 2) "Regular" "A-" "V" "" true 20] ∧
    ("V", "A-") ∈ vendorBuyerPairs
      [Row.mk (some 0) (some 1) "Regular" "A." "V" "" true 10,
       Row.mk (some 0) (some 2) "Regular" "A-" "V" "" true 20] ∧
    leafPath "V" "A." = leafPath "V" "A-" := by decide

/-- C5 amended: leaf paths separate two (vendor, buyer) groups exactly when
their sanitized name pairs differ — when two distinct names sanitize to the
same token the groups share one leaf path (the later write overwrites the
earlier) — while the index still lists one entry per (vendor, buyer)
group. -/
theorem c5_amended :
    (∀ v1 b1 v2 b2 : String,
        leafPath v1 b1 = leafPath v2 b2 ↔
          sanitize_path_part 80 v1 = sanitize_path_part 80 v2 ∧
          sanitize_path_part 80 b1 = sanitize_path_part 80 b2) ∧
    (∀ df : List Row,
        (partitionIndexEntries df).map (fun e => (e.vendor, e.buyer)) = vendorBuyerPairs df) := by
  constructor
  · intro v1 b1 v2 b2
    simp [leafPath]
  · intro df
    rw [partitionIndexEntries, mapFlatMap]
    simp only [List.map_map]
    rfl

/-- C7: on every table with the three rollup columns — including the empty
table — `_metrics_rollup` returns exactly 4 rows, one per (status, type)
combination, each carrying the amount sum and count of its matching rows,
with combinations matching no row reported as amount 0.0 and count 0 rather
than omitted. -/
theorem c7_rollup_coverage (df : List MRow) :
    (metricsRollup df).length = 4 ∧
    (metricsRollup df).map (fun e => e.1) = fullCombos ∧
    metricsRollup df = fullCombos.map (fun k =>
      (k, ((groupRowsM df k).map (fun r => qOf r.total_amount_with_taxes)).sum,
       (groupRowsM df k).length)) ∧
    metricsRollup [] =
      [(("Current", "Regular"), 0, 0), (("Current", "One Shot"), 0, 0),
       (("Past Due", "Regular"), 0, 0), (("Past Due", "One Shot"), 0, 0)] := by
  refine ⟨?_, ?_, metricsRollup_eq df, by decide⟩
  · rw [metricsRollup_eq]
    simp [fullCombos]
  · rw [metricsRollup_eq]
    simp [fullCombos]

/-- C3: in the report tree of `generate_html`, the buyer subtotals under
each vendor sum exactly to that vendor's total, the vendor totals sum
exactly to the grand total, and in `generate_html_partitioned` the leaf
(buyer) totals of the index sum exactly to the grand total (amounts
modelled as exact rationals). -/
theorem c3_subtotal_consistency (df : List Row) :
    (∀ vn ∈ generateHtmlVendors df, (vn.buyers.map BuyerNode.subtotal).sum = vn.vendor_total) ∧
    ((generateHtmlVendors df).map VendorNode.vendor_total).sum = grandTotal df ∧
    ((partitionIndexEntries df).map IndexEntry.buyer_total).sum = grandTotal df := by
  refine ⟨?_, ?_, ?_⟩
  · intro vn hvn
    obtain ⟨v, hv, rfl⟩ := List.mem_map.mp hvn
    simp only [List.map_map]
    exact sum_over_groups Row.buyer_company_name Row.total_amount_with_taxes
      (groupRows Row.vendor_company_name v df)
  · simp only [generateHtmlVendors, List.map_map]
    exact sum_over_groups Row.vendor_company_name Row.total_amount_with_taxes df
  · have h1 : (partitionIndexEntries df).map IndexEntry.buyer_total
        = (keysOf Row.vendor_company_name df).flatMap (fun v =>
            (keysOf Row.buyer_company_name (groupRows Row.vendor_company_name v df)).map
              (fun k => ((groupRows Row.buyer_company_name k
                (groupRows Row.vendor_company_name v df)).map Row.total_amount_with_taxes).sum)) := by
      rw [partitionIndexEntries, mapFlatMap]
      simp only [List.map_map]
      rfl
    rw [h1, sumFlatMap, List.map_congr_left (fun v _ =>
      sum_over_groups Row.buyer_company_name Row.total_amount_with_taxes
        (groupRows Row.vendor_company_name v df))]
    exact sum_over_groups Row.vendor_company_name Row.total_amount_with_taxes df

/-- C4: evaluation of the aging rollup at the failing input.  A past-due
row with a defined but negative `days_since_issue` (legitimate data: the
`past_due` flag comes from the source and §3 allows negative aging) lies in
none of the width-30 bins starting at 0, so `pd.cut` assigns it the NaN
category and `render_past_due_bins` raises `ValueError` at the
`astype(int)` of the `'nan'` bin label instead of producing the rollup the
claim describes; dropping that row from the same table yields the clean
rollup. -/
theorem c4_code_bug_eval :
    Row.mk (some 0) (some (-1)) "Regular" "B" "V" "" true 10 ∈
      binsTmp [Row.mk (some 0) (some (-1)) "Regular" "B" "V" "" true 10,
               Row.mk (some 0) (some 50) "Regular" "B" "V" "" true 100] ∧
    (Row.mk (some 0) (some (-1)) "Regular" "B" "V" "" true 10).past_due = true ∧
    (Row.mk (some 0) (some (-1)) "Regular" "B" "V" "" true 10).days_since_issue = some (-1) ∧
    listMax? ((binsTmp [Row.mk (some 0) (some (-1)) "Regular" "B" "V" "" true 10,
                        Row.mk (some 0) (some 50) "Regular" "B" "V" "" true 100]).filterMap
      Row.days_since_issue) = some 50 ∧
    binCountOf 50 = 2 ∧
    binIdxOf 50 (-1) = none ∧
    Row.mk (some 0) (some (-1)) "Regular" "B" "V" "" true 10 ∉
      rowsInBin 50 (binsTmp [Row.mk (some 0) (some (-1)) "Regular" "B" "V" "" true 10,
                             Row.mk (some 0) (some 50) "Regular" "B" "V" "" true 100]) 0 ∧
    Row.mk (some 0) (some (-1)) "Regular" "B" "V" "" true 10 ∉
      rowsInBin 50 (binsTmp [Row.mk (some 0) (some (-1)) "Regular" "B" "V" "" true 10,
                             Row.mk (some 0) (some 50) "Regular" "B" "V" "" true 100]) 1 ∧
    pastDueBins [Row.mk (some 0) (some (-1)) "Regular" "B" "V" "" true 10,
                 Row.mk (some 0) (some 50) "Regular" "B" "V" "" true 100] =
      BinsResult.error ∧
    pastDueBins [Row.mk (some 0) (some 50) "Regular" "B" "V" "" true 100] =
      BinsResult.ok [(0, 0, 0), (30, 1, 100)] := by
  have hbc : binCountOf 50 = 2 := by decide
  have hrg : List.range 2 = [0, 1] := by decide
  have h0 : binIdxOf 50 (-1) = none := by decide
  have h1 : binIdxOf 50 50 = some 1 := by decide
  have hel : (edgesOf 50).length = 3 := by decide
  refine ⟨by decide, rfl, rfl, by decide, hbc, h0, by decide, by decide, by decide, ?_⟩
  simp [pastDueBins, binsTmp, listMax?, hbc, hrg, h1, hel, rowsInBin, sumAmt,
    List.filter, List.filterMap]

/-- C9: `extract_company_number` implements exactly the contract of §4.2 —
after optional leading whitespace, a `\d{4}-\d{4}` token or a bare 7-to-10
digit run ending at a word boundary is returned, and everything else
(including a leading run of 11 or more digits) yields no match. -/
theorem c9_company_number_contract (s : String) :
    extract_company_number (Value.str s) = claimCompanyToken s := by
  unfold extract_company_number
  dsimp only
  by_cases hblank : (pyStrip s).data.isEmpty
  · rw [if_pos hblank]
    have hrest : s.data.dropWhile pySpace = [] :=
      dropWhile_pySpace_of_strip_nil s.data (by simpa [pyStrip] using hblank)
    unfold claimCompanyToken
    rw [hrest]
    simp
  · rw [if_neg hblank]
    exact companyNumMatch_eq_claim s

/-- C10: the extractor is total at its public interface — non-string inputs
and blank strings yield the no-match result rather than an error — and rows
whose buyer name is blank or the `"(null)"` placeholder are always
classified External. -/
theorem c10_extract_total (v : Value) (s : String) (df : List Row) (f : Filters) (r : Row) :
    ((∀ t : String, v ≠ Value.str t) → extract_company_number v = none) ∧
    (pyStrip s = "" → extract_company_number (Value.str s) = none) ∧
    (pyStrip r.buyer_company_name = "" ∨ r.buyer_company_name = "(null)" →
      rowIsInternal df f r = false) := by
  refine ⟨?_, ?_, ?_⟩
  · intro hv
    cases v with
    | str t => exact absurd rfl (hv t)
    | null => rfl
    | num q => rfl
    | bool b => rfl
    | date d => rfl
  · intro hs
    have hempty : (pyStrip s).data.isEmpty = true := by
      rw [hs]
      rfl
    simp [extract_company_number, hempty]
  · intro hcase
    have hex : extractCompanyNumberStr r.buyer_company_name = none := by
      rcases hcase with hblank | hnull
      · have hempty : (pyStrip r.buyer_company_name).data.isEmpty = true := by
          rw [hblank]
          rfl
        simp [extractCompanyNumberStr, extract_company_number, hempty]
      · rw [hnull]
        decide
    simp [rowIsInternal, hex]

/-- C10 witnessed at a number cell, a whitespace-only name, and a
`"(null)"`-buyer row. -/
theorem c10_extract_total_witness :
    extract_company_number (Value.num 3) = none ∧
    extract_company_number (Value.str "   ") = none ∧
    rowIsInternal [] (Filters.mk 0 0 0 0 "All" [] [] [])
      (Row.mk (some 0) (some 1) "Regular" "(null)" "V" "" true 10) = false := by
  have h := c10_extract_total (Value.num 3) "   " []
    (Filters.mk 0 0 0 0 "All" [] [] [])
    (Row.mk (some 0) (some 1) "Regular" "(null)" "V" "" true 10)
  exact ⟨h.1 (fun t hEq => Value.noConfusion hEq), h.2.1 (by decide), h.2.2 (Or.inr rfl)⟩

/-- C3 witnessed at a one-row table: the single buyer subtotal is the
vendor total and the grand total. -/
theorem c3_subtotal_witness :
    ((VendorNode.mk "V1" [BuyerNode.mk "B1" 10] 10).buyers.map BuyerNode.subtotal).sum =
      (VendorNode.mk "V1" [BuyerNode.mk "B1" 10] 10).vendor_total ∧
    ((generateHtmlVendors [Row.mk (some 0) (some 1) "Regular" "B1" "V1" "" true 10]).map
      VendorNode.vendor_total).sum =
      grandTotal [Row.mk (some 0) (some 1) "Regular" "B1" "V1" "" true 10] ∧
    ((partitionIndexEntries [Row.mk (some 0) (some 1) "Regular" "B1" "V1" "" true 10]).map
      IndexEntry.buyer_total).sum =
      grandTotal [Row.mk (some 0) (some 1) "Regular" "B1" "V1" "" true 10] := by
  have h := c3_subtotal_consistency [Row.mk (some 0) (some 1) "Regular" "B1" "V1" "" true 10]
  refine ⟨h.1 (VendorNode.mk "V1" [BuyerNode.mk "B1" 10] 10) ?_, h.2.1, h.2.2⟩
  simp [generateHtmlVendors, keysOf, groupRows, sumAmt]

end CnetAging
